import Mathlib

/-!
Verification of the BharatX price-comparison core: the MCDM ranker
(`src/mcdm_ranker.py`) and the aggregation pipeline of
`src/enhanced_scraping_tool.py` (deduplication, gather, filter).

Numbers: Python floats are modelled as rationals (ℚ); the code only adds,
multiplies, divides and compares, so the rational semantics coincides with
the intended real-number semantics of the spec.

Strings: modelled as `String` / `List Char`.  The repository only feeds
ASCII product names and queries through these paths, and all keyword /
pattern tables are ASCII, so `Char.toLower`, `Char.isDigit`,
`Char.isAlphanum`, `Char.isWhitespace` model Python's `str.lower`, `\d`,
`\w`, `\s` on the relevant inputs.

`fuzzywuzzy`'s `fuzz.ratio` is modelled as the python-Levenshtein backed
ratio: `0` when either string is empty (the `check_empty_string`
decorator), otherwise `round_half_even(100 * (len1+len2 - dist) /
(len1+len2))` where `dist` is the edit distance with substitution cost 2,
i.e. `round_half_even(200 * lcs / (len1+len2))`.  `fuzz.token_sort_ratio`
pre-processes both strings (non-word characters to spaces, lower-case,
strip), sorts the whitespace tokens, joins with single spaces, and applies
the same ratio.
-/

set_option allowUnsafeReducibility true
attribute [semireducible] Rat.add Rat.sub Rat.mul Rat.inv

namespace BharatX

/-! ### Basic character/string helpers -/

/-- Python `str.lower()` on a string, as a character list. -/
def low (s : String) : List Char := s.data.map Char.toLower

/-- Membership in Python's `\w` class (ASCII view): alphanumeric or `_`. -/
def isWordChar (c : Char) : Bool := c.isAlphanum || c = '_'

/-- Substring containment: Python's `needle in hay` on strings. -/
def containsSub (needle : List Char) : List Char → Bool
  | [] => needle.isEmpty
  | c :: rest => needle.isPrefixOf (c :: rest) || containsSub needle rest

/-- Maximal runs of characters satisfying `keep`; used for `re.findall(r'\w+', s)`
(with `keep := isWordChar`) and for Python `str.split()` (with
`keep := fun c => !c.isWhitespace`). -/
def runsByAux (keep : Char → Bool) : List Char → List Char → List (List Char)
  | [], cur => if cur.isEmpty then [] else [cur.reverse]
  | c :: rest, cur =>
    if keep c then runsByAux keep rest (c :: cur)
    else if cur.isEmpty then runsByAux keep rest []
    else cur.reverse :: runsByAux keep rest []

def runsBy (keep : Char → Bool) (s : List Char) : List (List Char) :=
  runsByAux keep s []

/-- `re.findall(r'\w+', s)`. -/
def wordRuns (s : List Char) : List (List Char) := runsBy isWordChar s

/-- Python `str.split()` with no argument. -/
def splitWs (s : List Char) : List (List Char) :=
  runsBy (fun c => !c.isWhitespace) s

/-- Python `str.strip()`. -/
def pyStrip (s : List Char) : List Char :=
  ((s.dropWhile Char.isWhitespace).reverse.dropWhile Char.isWhitespace).reverse

/-! ### fuzz.ratio (python-Levenshtein backend) -/

/-- Length of a longest common subsequence, fuel-structured so the kernel
can evaluate it; `fuel` only needs to dominate the total length. -/
def lcsFuel : Nat → List Char → List Char → Nat
  | 0, _, _ => 0
  | _ + 1, [], _ => 0
  | _ + 1, _ :: _, [] => 0
  | fuel + 1, x :: xs, y :: ys =>
    if x = y then lcsFuel fuel xs ys + 1
    else max (lcsFuel fuel (x :: xs) ys) (lcsFuel fuel xs (y :: ys))

/-- Length of a longest common subsequence of two character lists. -/
def lcs (s1 s2 : List Char) : Nat := lcsFuel (s1.length + s2.length) s1 s2

/-- Python 3 `round` to an integer: round half to even (`Rat.floor` is the
computable floor on ℚ). -/
def roundHalfEven (q : ℚ) : ℤ :=
  if q - (Rat.floor q : ℚ) < 1/2 then Rat.floor q
  else if 1/2 < q - (Rat.floor q : ℚ) then Rat.floor q + 1
  else if Rat.floor q % 2 = 0 then Rat.floor q else Rat.floor q + 1

/-- `fuzz.ratio(s1, s2)`: 0 if either string is empty, else the rounded
Levenshtein similarity on a 0..100 scale. -/
def fuzzRatio (s1 s2 : List Char) : ℤ :=
  if s1.isEmpty || s2.isEmpty then 0
  else roundHalfEven ((200 * (lcs s1 s2 : ℚ)) / ((s1.length : ℚ) + (s2.length : ℚ)))

/-! ### fuzz.token_sort_ratio -/

/-- `fuzzywuzzy.utils.full_process`: replace non-word characters by spaces,
lower-case, strip. -/
def full_process (s : List Char) : List Char :=
  pyStrip ((s.map (fun c => if isWordChar c then c else ' ')).map Char.toLower)

/-- Lexicographic `≤` on character lists (Python string comparison). -/
def lexLe : List Char → List Char → Bool
  | [], _ => true
  | _ :: _, [] => false
  | a :: as, b :: bs => if a = b then lexLe as bs else decide (a < b)

/-- `fuzz._process_and_sort`: full-process, split into tokens, sort them,
join with single spaces, strip. -/
def process_and_sort (s : List Char) : List Char :=
  pyStrip (List.intercalate [' '] ((splitWs (full_process s)).mergeSort lexLe))

/-- `fuzz.token_sort_ratio(s1, s2)` with default processing. -/
def token_sort_ratio (s1 s2 : List Char) : ℤ :=
  fuzzRatio (process_and_sort s1) (process_and_sort s2)

/-! ### The exact-model regexes of `MCDMRanker._is_exact_model_match`

Each pattern in `mcdm_ranker.py` is a `\b`-delimited sequence of three kinds
of atoms: a digit run `\d+`, an optional whitespace run `\s*`, and a literal.
For these patterns greedy maximal-munch matching agrees with Python `re`
semantics (no atom can absorb the first character of its successor), so
`re.findall` is modelled by a left-to-right non-overlapping scan with
maximal-munch atoms and word-boundary checks at both ends. -/

inductive RAtom
  | digits
  | ws
  | lit (cs : List Char)
deriving DecidableEq

/-- Match a pattern's atoms at the head of `s`, maximal munch; returns the
matched characters and the rest of the string. -/
def matchAtoms : List RAtom → List Char → Option (List Char × List Char)
  | [], s => some ([], s)
  | .digits :: ts, s =>
    let run := s.takeWhile Char.isDigit
    if run.isEmpty then none
    else (matchAtoms ts (s.drop run.length)).map (fun mr => (run ++ mr.1, mr.2))
  | .ws :: ts, s =>
    let run := s.takeWhile Char.isWhitespace
    (matchAtoms ts (s.drop run.length)).map (fun mr => (run ++ mr.1, mr.2))
  | .lit cs :: ts, s =>
    if cs.isPrefixOf s then
      (matchAtoms ts (s.drop cs.length)).map (fun mr => (cs ++ mr.1, mr.2))
    else none

/-- `re.findall(pattern, s)` for the model patterns: scan every position that
sits at a word boundary, emit non-overlapping matches whose end also sits at
a word boundary.  `prev` says whether the previous character is a word
character; `fuel` dominates the number of characters still to be consumed. -/
def findallAux (pat : List RAtom) : Nat → Bool → List Char → List (List Char)
  | 0, _, _ => []
  | _ + 1, _, [] => []
  | fuel + 1, prev, c :: rest =>
    if prev then findallAux pat fuel (isWordChar c) rest
    else
      match matchAtoms pat (c :: rest) with
      | some (m, rest') =>
        if (rest'.headD ' ' |> isWordChar) || m.isEmpty then
          findallAux pat fuel (isWordChar c) rest
        else m :: findallAux pat fuel true rest'
      | none => findallAux pat fuel (isWordChar c) rest

def findall (pat : List RAtom) (s : List Char) : List (List Char) :=
  findallAux pat (s.length + 1) false s

/-- The six `model_patterns` of `_is_exact_model_match`, in source order. -/
def model_patterns : List (List RAtom) :=
  [ [.digits, .ws, .lit ['p','r','o'], .ws, .lit ['m','a','x']],
    [.digits, .ws, .lit ['p','r','o']],
    [.digits, .ws, .lit ['p','l','u','s']],
    [.digits, .lit ['r']],
    [.lit ['i','p','h','o','n','e'], .ws, .digits],
    [.lit ['g','a','l','a','x','y'], .ws, .lit ['s'], .digits] ]

/-- `MCDMRanker._is_exact_model_match(product_name, query)`: some pattern has
matches in both the (lowered) query and product name, with a common matched
string. -/
def is_exact_model_match (product_name query : List Char) : Bool :=
  model_patterns.any (fun pat =>
    let query_matches := findall pat (query.map Char.toLower)
    let product_matches := findall pat (product_name.map Char.toLower)
    !query_matches.isEmpty && !product_matches.isEmpty &&
      query_matches.any (fun qm => product_matches.contains qm))

/-! ### MCDMRanker: key terms, categories, relevance -/

/-- The `stop_words` set of `_extract_key_terms`. -/
def stop_words : List (List Char) :=
  [['t','h','e'], ['a'], ['a','n'], ['a','n','d'], ['o','r'], ['b','u','t'],
   ['i','n'], ['o','n'], ['a','t'], ['t','o'], ['f','o','r'], ['o','f'],
   ['w','i','t','h'], ['b','y']]

/-- `MCDMRanker._extract_key_terms(query)`: `\w+` runs of the lowered query,
keeping terms of length > 2 that are not stop words. -/
def extract_key_terms (query : List Char) : List (List Char) :=
  (wordRuns (query.map Char.toLower)).filter
    (fun term => decide (2 < term.length) && !stop_words.contains term)

/-- The ordered category table of `_calculate_category_alignment`
(Python dict iteration order). -/
def categories : List (String × List String) :=
  [ ("phone", ["iphone", "phone", "mobile", "smartphone", "galaxy", "pixel", "oneplus"]),
    ("laptop", ["laptop", "macbook", "thinkpad", "notebook", "computer"]),
    ("tablet", ["ipad", "tablet", "kindle"]),
    ("audio", ["headphones", "earbuds", "speaker", "airpods"]),
    ("accessory", ["case", "cover", "charger", "cable", "screen protector", "silicon", "leather"]) ]

/-- Whether some keyword of `kws` occurs as a substring of `s`. -/
def anyKeywordIn (kws : List String) (s : List Char) : Bool :=
  kws.any (fun kw => containsSub kw.data s)

/-- The first category whose keywords hit the query (`None` if none). -/
def queryCategory (query : List Char) : Option (String × List String) :=
  categories.find? (fun ckw => anyKeywordIn ckw.2 query)

/-- The accessory keyword list of the category table. -/
def accessory_keywords_table : List String :=
  (((categories.find? (fun c => c.1 = "accessory")).map (fun c => c.2)).getD [])

/-- `MCDMRanker._calculate_category_alignment(product_name, query)`; both
arguments arrive already lowered, as at the call site.  `anyKeywordIn qc.2`
is the source's `product_matches_category`, `anyKeywordIn
accessory_keywords_table` its `is_accessory`. -/
def calculate_category_alignment (product_name query : List Char) : ℚ :=
  match queryCategory query with
  | none => 1/2
  | some qc =>
    if qc.1 = "phone" ∨ qc.1 = "laptop" ∨ qc.1 = "tablet" then
      if anyKeywordIn accessory_keywords_table product_name then 1/10
      else if anyKeywordIn qc.2 product_name then 1
      else 3/10
    else if anyKeywordIn qc.2 product_name then 1
    else if anyKeywordIn accessory_keywords_table product_name && !(qc.1 = "accessory") then 2/10
    else 1/2

/-- Fuzzy-similarity component of the relevance score (weight 0.25). -/
def fuzzyComponent (product_lower query_lower : List Char) : ℚ :=
  (token_sort_ratio product_lower query_lower : ℚ) / 100

/-- The source's `exact_matches` count: query terms literally contained in
the product name. -/
def exactMatchCount (product_lower query_lower : List Char) : Nat :=
  ((extract_key_terms query_lower).filter (fun term => containsSub term product_lower)).length

/-- The source's `exact_score` before the exact-model bonus:
`min(exact_matches / len(query_terms), 1.0) if query_terms else 0`. -/
def exactScoreBase (product_lower query_lower : List Char) : ℚ :=
  if (extract_key_terms query_lower).isEmpty then 0
  else min ((exactMatchCount product_lower query_lower : ℚ)
    / ((extract_key_terms query_lower).length : ℚ)) 1

/-- Exact key-term coverage with the exact-model bonus (weight 0.40). -/
def exactComponent (product_lower query_lower : List Char) : ℚ :=
  if is_exact_model_match product_lower query_lower then
    min (exactScoreBase product_lower query_lower + 1/2) 1
  else exactScoreBase product_lower query_lower

/-- The source's `partial_matches` count: query terms one of whose
whitespace parts occurs in the name. -/
def partMatchCount (product_lower query_lower : List Char) : Nat :=
  ((extract_key_terms query_lower).filter
    (fun term => (splitWs term).any (fun part => containsSub part product_lower))).length

/-- Partial key-term coverage (weight 0.10). -/
def partComponent (product_lower query_lower : List Char) : ℚ :=
  if (extract_key_terms query_lower).isEmpty then 0
  else min ((partMatchCount product_lower query_lower : ℚ)
    / ((extract_key_terms query_lower).length : ℚ)) 1

/-- `MCDMRanker.calculate_relevance_score(product_name, search_query)`. -/
def calculate_relevance_score (product_name search_query : String) : ℚ :=
  let product_lower := low product_name
  let query_lower := low search_query
  fuzzyComponent product_lower query_lower * (25/100)
    + exactComponent product_lower query_lower * (40/100)
    + partComponent product_lower query_lower * (10/100)
    + calculate_category_alignment product_lower query_lower * (25/100)

/-- `MCDMRanker._is_accessory_product(product_name)` (argument already
lowered at the call site). -/
def is_accessory_product (product_name : List Char) : Bool :=
  anyKeywordIn ["case", "cover", "charger", "cable", "screen protector",
    "silicon", "leather", "tempered glass"] product_name

/-- `MCDMRanker._is_searching_for_accessory(query)`. -/
def is_searching_for_accessory (query : String) : Bool :=
  anyKeywordIn ["case", "cover", "charger", "cable", "screen protector"] (low query)

/-! ### Price normalization -/

/-- Left fold of `min` over a nonempty list, Python `min(prices)`. -/
def listMin : List ℚ → ℚ
  | [] => 0
  | p :: ps => ps.foldl min p

/-- Left fold of `max` over a nonempty list, Python `max(prices)`. -/
def listMax : List ℚ → ℚ
  | [] => 0
  | p :: ps => ps.foldl max p

/-- `len(set(prices)) == 1`: the list is nonempty and all its elements are
equal. -/
def allEqual : List ℚ → Bool
  | [] => false
  | p :: ps => ps.all (fun q => q = p)

/-- `MCDMRanker.normalize_price_score(prices)`; the inner `price_range == 0`
guard of the source is kept although the outer guard makes it dead. -/
def normalize_price_score (prices : List ℚ) : List ℚ :=
  if prices.isEmpty || allEqual prices then List.replicate prices.length (1/2)
  else
    prices.map (fun price =>
      if listMax prices - listMin prices = 0 then 1/2
      else 1 - (price - listMin prices) / (listMax prices - listMin prices))

/-! ### MCDM scoring -/

/-- The `source_reliability` table of `MCDMRanker.__init__`. -/
def source_reliability : List (String × ℚ) :=
  [ ("Amazon.in", 95/100), ("Flipkart", 90/100), ("Walmart", 95/100),
    ("eBay.com", 85/100), ("eBay.in", 85/100), ("Snapdeal", 80/100),
    ("Shopsy", 75/100) ]

/-- `self.source_reliability.get(source, 0.5)`. -/
def source_trust (source : String) : ℚ :=
  ((source_reliability.find? (fun kv => kv.1 = source)).map (fun kv => kv.2)).getD (1/2)

/-- A listing dict as consumed by `calculate_mcdm_scores` (the shape produced
by `Product.to_dict`). -/
structure ProductDict where
  link : String
  price : ℚ
  currency : String
  productName : String
  source : String
deriving DecidableEq

/-- A row of the `criteria_matrix` built in the first pass of
`calculate_mcdm_scores`. -/
structure Criteria where
  relevance : ℚ
  price_raw : ℚ
  source_reliability : ℚ
  has_exact_match : Bool
  is_accessory : Bool
deriving DecidableEq

/-- First pass of `calculate_mcdm_scores`: one `Criteria` row per product. -/
def baseCriteria (products : List ProductDict) (search_query : String) : List Criteria :=
  products.map (fun product =>
    { relevance := calculate_relevance_score product.productName search_query
      price_raw := product.price
      source_reliability := source_trust product.source
      has_exact_match := is_exact_model_match (low product.productName) (low search_query)
      is_accessory := is_accessory_product (low product.productName) })

/-- Second pass, first penalty: 20% off the relevance of rows without an
exact model match. -/
def penalizeNonExact (c : Criteria) : ℚ :=
  if !c.has_exact_match then c.relevance * (8/10) else c.relevance

/-- Second pass: the two contextual penalties applied to one row. -/
def adjustCriteria (search_query : String) (c : Criteria) : Criteria :=
  { c with relevance :=
      if c.is_accessory && !is_searching_for_accessory search_query then
        penalizeNonExact c * (3/10)
      else penalizeNonExact c }

/-- The criteria matrix after the `has_exact_matches` conditional second
pass. -/
def adjustedCriteria (products : List ProductDict) (search_query : String) : List Criteria :=
  if (baseCriteria products search_query).any (fun c => c.has_exact_match) then
    (baseCriteria products search_query).map (adjustCriteria search_query)
  else baseCriteria products search_query

/-- A product dict extended with the `mcdm_score` and `relevance_score` keys. -/
structure ScoredProduct where
  base : ProductDict
  mcdm_score : ℚ
  relevance_score : ℚ
deriving DecidableEq

/-- The weighted combination of one row (weights 0.75 / 0.20 / 0.05). -/
def mkScored (product : ProductDict) (c : Criteria) (normalized_price : ℚ) : ScoredProduct :=
  { base := product
    mcdm_score := c.relevance * (75/100) + normalized_price * (20/100)
      + c.source_reliability * (5/100)
    relevance_score := c.relevance }

/-- The annotated products of `calculate_mcdm_scores` before the final sort,
index-aligned with the input. -/
def scoredProducts (products : List ProductDict) (search_query : String) : List ScoredProduct :=
  let criteria := adjustedCriteria products search_query
  let normalized_prices := normalize_price_score (criteria.map (fun c => c.price_raw))
  List.zipWith (fun pc np => mkScored pc.1 pc.2 np) (products.zip criteria) normalized_prices

/-- Descending comparison on `mcdm_score` (`sort(key=..., reverse=True)`). -/
def mcdmDesc (a b : ScoredProduct) : Bool := decide (b.mcdm_score ≤ a.mcdm_score)

/-- `MCDMRanker.calculate_mcdm_scores(products, search_query)`: annotate and
sort by descending MCDM score (Python's sort is a stable merge sort). -/
def calculate_mcdm_scores (products : List ProductDict) (search_query : String) :
    List ScoredProduct :=
  (scoredProducts products search_query).mergeSort mcdmDesc

/-- `MCDMRanker.filter_low_relevance(products, min_relevance)`. -/
def filter_low_relevance (products : List ScoredProduct) (min_relevance : ℚ) :
    List ScoredProduct :=
  products.filter (fun product => decide (min_relevance ≤ product.relevance_score))

/-! ### Deduplication and the search pipeline (`enhanced_scraping_tool.py`) -/

/-- The `Product` dataclass of `enhanced_scraping_tool.py`. -/
structure Product where
  link : String
  price : ℚ
  currency : String
  product_name : String
  source : String
deriving DecidableEq

/-- `Product.to_dict`. -/
def Product.to_dict (p : Product) : ProductDict :=
  { link := p.link, price := p.price, currency := p.currency,
    productName := p.product_name, source := p.source }

/-- The pairwise duplicate test in `_remove_duplicates`: `product` is the
candidate, `existing` an already accepted listing. -/
def isDuplicate (product existing : Product) : Bool :=
  let name_similarity := fuzzRatio (low product.product_name) (low existing.product_name)
  if product.currency = existing.currency then
    decide (90 < name_similarity) &&
      decide (|product.price - existing.price|
        / max product.price (max existing.price 1) < 5/100)
  else decide (95 < name_similarity)

/-- One step of the accepting loop of `_remove_duplicates`. -/
def dedupStep (unique_products : List Product) (product : Product) : List Product :=
  if unique_products.any (fun existing => isDuplicate product existing) then unique_products
  else unique_products ++ [product]

/-- `EnhancedPriceComparisonTool._remove_duplicates(products)`: first-seen
wins. -/
def remove_duplicates (products : List Product) : List Product :=
  products.foldl dedupStep []

/-- The per-source outcome of the concurrent fan-out, as joined by
`asyncio.gather(..., return_exceptions=True)`: either a listing list or an
exception (represented by its message). -/
def gatherSucceeded (results : List (Except String (List Product))) : List Product :=
  results.foldl (fun all_products result =>
    match result with
    | .ok lst => all_products ++ lst
    | .error _ => all_products) []

/-- `EnhancedPriceComparisonTool.search_products` after the join point:
collect the successful sources' listings, deduplicate, rank, and filter at
relevance floor 0.2. -/
def search_products (results : List (Except String (List Product))) (query : String) :
    List ScoredProduct :=
  let unique_products := remove_duplicates (gatherSucceeded results)
  let product_dicts := unique_products.map Product.to_dict
  let ranked_products := calculate_mcdm_scores product_dicts query
  filter_low_relevance ranked_products (2/10)

/-! ### Bounds on the fuzzy ratio -/

theorem lcsFuel_le_left (fuel : Nat) : ∀ (s1 s2 : List Char), lcsFuel fuel s1 s2 ≤ s1.length := by
  induction fuel with
  | zero => intro s1 s2; simp [lcsFuel]
  | succ n ih =>
    intro s1 s2
    match s1, s2 with
    | [], _ => simp [lcsFuel]
    | _ :: _, [] => simp [lcsFuel]
    | x :: xs, y :: ys =>
      by_cases h : x = y
      · simp only [lcsFuel, if_pos h, List.length_cons]
        exact Nat.succ_le_succ (ih xs ys)
      · simp only [lcsFuel, if_neg h, List.length_cons]
        exact max_le (ih (x :: xs) ys) (le_trans (ih xs (y :: ys)) (Nat.le_succ _))

theorem lcsFuel_le_right (fuel : Nat) : ∀ (s1 s2 : List Char), lcsFuel fuel s1 s2 ≤ s2.length := by
  induction fuel with
  | zero => intro s1 s2; simp [lcsFuel]
  | succ n ih =>
    intro s1 s2
    match s1, s2 with
    | [], _ => simp [lcsFuel]
    | _ :: _, [] => simp [lcsFuel]
    | x :: xs, y :: ys =>
      by_cases h : x = y
      · simp only [lcsFuel, if_pos h, List.length_cons]
        exact Nat.succ_le_succ (ih xs ys)
      · simp only [lcsFuel, if_neg h, List.length_cons]
        exact max_le (le_trans (ih (x :: xs) ys) (Nat.le_succ _)) (ih xs (y :: ys))

theorem ratFloor_eq (q : ℚ) : (Rat.floor q : ℤ) = ⌊q⌋ :=
  (Rat.floor_def' q).trans Rat.floor_def.symm

theorem roundHalfEven_nonneg (q : ℚ) (h : 0 ≤ q) : 0 ≤ roundHalfEven q := by
  unfold roundHalfEven
  rw [ratFloor_eq]
  have hf : (0 : ℤ) ≤ ⌊q⌋ := Int.floor_nonneg.mpr h
  split_ifs <;> omega

theorem roundHalfEven_le (q : ℚ) (n : ℤ) (h : q ≤ (n : ℚ)) : roundHalfEven q ≤ n := by
  unfold roundHalfEven
  rw [ratFloor_eq]
  have hf : ⌊q⌋ ≤ n := by
    have := Int.floor_mono h
    rwa [Int.floor_intCast] at this
  have hfq : (⌊q⌋ : ℚ) ≤ q := Int.floor_le q
  split_ifs with h1 h2 h3
  · exact hf
  · by_contra hc
    push_neg at hc
    have hn : n ≤ ⌊q⌋ := by omega
    have : q < (⌊q⌋ : ℚ) + 1/2 := by
      calc q ≤ (n : ℚ) := h
      _ ≤ (⌊q⌋ : ℚ) := by exact_mod_cast hn
      _ < (⌊q⌋ : ℚ) + 1/2 := by norm_num
    linarith
  · exact hf
  · have hhalf : q - (⌊q⌋ : ℚ) = 1/2 := le_antisymm (not_lt.mp h2) (not_lt.mp h1)
    have h4 : (⌊q⌋ : ℚ) < (n : ℚ) := by linarith
    have : ⌊q⌋ < n := by exact_mod_cast h4
    omega

theorem fuzzRatio_nonneg (s1 s2 : List Char) : 0 ≤ fuzzRatio s1 s2 := by
  unfold fuzzRatio
  split
  · exact le_refl 0
  · exact roundHalfEven_nonneg _ (by positivity)

theorem fuzzRatio_le_100 (s1 s2 : List Char) : fuzzRatio s1 s2 ≤ 100 := by
  unfold fuzzRatio
  split
  · norm_num
  · rename_i he
    apply roundHalfEven_le
    have h1 : ¬ s1.isEmpty ∧ ¬ s2.isEmpty := by
      constructor <;> (intro hc; apply he; simp [hc])
    have hl1 : 1 ≤ s1.length := by
      cases s1 with
      | nil => simp at h1
      | cons a l => simp
    have hl2 : 1 ≤ s2.length := by
      cases s2 with
      | nil => simp at h1
      | cons a l => simp
    have hlcs1 : lcs s1 s2 ≤ s1.length := lcsFuel_le_left _ s1 s2
    have hlcs2 : lcs s1 s2 ≤ s2.length := lcsFuel_le_right _ s1 s2
    have hden : (0 : ℚ) < (s1.length : ℚ) + (s2.length : ℚ)
      := by have := hl1; have := hl2; positivity
    rw [div_le_iff₀ hden]
    have : (2 * lcs s1 s2 : ℚ) ≤ (s1.length : ℚ) + (s2.length : ℚ) := by
      have h2 : 2 * lcs s1 s2 ≤ s1.length + s2.length := by omega
      exact_mod_cast h2
    push_cast
    linarith

/-! ### Bounds on the relevance components -/

theorem fuzzyComponent_bounds (pl ql : List Char) :
    0 ≤ fuzzyComponent pl ql ∧ fuzzyComponent pl ql ≤ 1 := by
  unfold fuzzyComponent token_sort_ratio
  have h0 : (0 : ℤ) ≤ fuzzRatio (process_and_sort pl) (process_and_sort ql) :=
    fuzzRatio_nonneg _ _
  have h1 : fuzzRatio (process_and_sort pl) (process_and_sort ql) ≤ 100 :=
    fuzzRatio_le_100 _ _
  constructor
  · apply div_nonneg _ (by norm_num)
    exact_mod_cast h0
  · rw [div_le_one (by norm_num)]
    exact_mod_cast h1

theorem exactScoreBase_bounds (pl ql : List Char) :
    0 ≤ exactScoreBase pl ql ∧ exactScoreBase pl ql ≤ 1 := by
  unfold exactScoreBase
  split_ifs
  · norm_num
  · exact ⟨le_min (by positivity) (by norm_num), min_le_right _ _⟩

theorem exactComponent_bounds (pl ql : List Char) :
    0 ≤ exactComponent pl ql ∧ exactComponent pl ql ≤ 1 := by
  unfold exactComponent
  obtain ⟨h0, h1⟩ := exactScoreBase_bounds pl ql
  split_ifs
  · exact ⟨le_min (by linarith) (by norm_num), min_le_right _ _⟩
  · exact ⟨h0, h1⟩

theorem partComponent_bounds (pl ql : List Char) :
    0 ≤ partComponent pl ql ∧ partComponent pl ql ≤ 1 := by
  unfold partComponent
  split_ifs
  · norm_num
  · exact ⟨le_min (by positivity) (by norm_num), min_le_right _ _⟩

theorem category_alignment_bounds (pl ql : List Char) :
    0 ≤ calculate_category_alignment pl ql ∧ calculate_category_alignment pl ql ≤ 1 := by
  unfold calculate_category_alignment
  split
  · norm_num
  · split_ifs <;> norm_num

theorem calculate_relevance_score_bounds (product_name search_query : String) :
    0 ≤ calculate_relevance_score product_name search_query ∧
      calculate_relevance_score product_name search_query ≤ 1 := by
  unfold calculate_relevance_score
  obtain ⟨hf0, hf1⟩ := fuzzyComponent_bounds (low product_name) (low search_query)
  obtain ⟨he0, he1⟩ := exactComponent_bounds (low product_name) (low search_query)
  obtain ⟨hp0, hp1⟩ := partComponent_bounds (low product_name) (low search_query)
  obtain ⟨hc0, hc1⟩ := category_alignment_bounds (low product_name) (low search_query)
  constructor <;> [positivity; linarith]

/-! ### Properties of the contextual adjustment -/

theorem penalizeNonExact_le (c : Criteria) (h : 0 ≤ c.relevance) :
    penalizeNonExact c ≤ c.relevance := by
  unfold penalizeNonExact
  split_ifs <;> linarith

theorem penalizeNonExact_nonneg (c : Criteria) (h : 0 ≤ c.relevance) :
    0 ≤ penalizeNonExact c := by
  unfold penalizeNonExact
  split_ifs
  · exact mul_nonneg h (by norm_num)
  · exact h

theorem adjustCriteria_relevance_le (search_query : String) (c : Criteria)
    (h : 0 ≤ c.relevance) : (adjustCriteria search_query c).relevance ≤ c.relevance := by
  have hp := penalizeNonExact_le c h
  have hpn := penalizeNonExact_nonneg c h
  unfold adjustCriteria
  dsimp only
  split_ifs <;> nlinarith

theorem adjustCriteria_relevance_nonneg (search_query : String) (c : Criteria)
    (h : 0 ≤ c.relevance) : 0 ≤ (adjustCriteria search_query c).relevance := by
  have hpn := penalizeNonExact_nonneg c h
  unfold adjustCriteria
  dsimp only
  split_ifs <;> nlinarith

theorem adjustCriteria_factor (search_query : String) (c : Criteria) :
    (adjustCriteria search_query c).relevance =
      c.relevance * (if c.has_exact_match then 1 else 8/10)
        * (if c.is_accessory && !is_searching_for_accessory search_query then 3/10 else 1) := by
  unfold adjustCriteria penalizeNonExact
  rcases hc : c.has_exact_match <;>
    rcases ha : c.is_accessory && !is_searching_for_accessory search_query <;>
    simp [hc, ha]

theorem adjustCriteria_price_raw (search_query : String) (c : Criteria) :
    (adjustCriteria search_query c).price_raw = c.price_raw := rfl

theorem adjustCriteria_source_reliability (search_query : String) (c : Criteria) :
    (adjustCriteria search_query c).source_reliability = c.source_reliability := rfl

/-! ### Shape lemmas for the scoring pipeline -/

theorem baseCriteria_length (products : List ProductDict) (search_query : String) :
    (baseCriteria products search_query).length = products.length :=
  List.length_map _ _

theorem adjustedCriteria_length (products : List ProductDict) (search_query : String) :
    (adjustedCriteria products search_query).length = products.length := by
  unfold adjustedCriteria
  split
  · rw [List.length_map, baseCriteria_length]
  · exact baseCriteria_length products search_query

theorem normalize_price_score_length (prices : List ℚ) :
    (normalize_price_score prices).length = prices.length := by
  unfold normalize_price_score
  split
  · exact List.length_replicate _ _
  · exact List.length_map _ _

theorem scoredProducts_length (products : List ProductDict) (search_query : String) :
    (scoredProducts products search_query).length = products.length := by
  unfold scoredProducts
  rw [List.length_zipWith, List.length_zip, normalize_price_score_length, List.length_map,
    adjustedCriteria_length]
  omega

theorem scoredProducts_get (products : List ProductDict) (search_query : String)
    (i : Nat) (hi : i < products.length) :
    (scoredProducts products search_query).get
        ⟨i, by rw [scoredProducts_length]; exact hi⟩ =
      mkScored (products.get ⟨i, hi⟩)
        ((adjustedCriteria products search_query).get
          ⟨i, by rw [adjustedCriteria_length]; exact hi⟩)
        ((normalize_price_score
            ((adjustedCriteria products search_query).map (fun c => c.price_raw))).get
          ⟨i, by rw [normalize_price_score_length, List.length_map, adjustedCriteria_length]
                 exact hi⟩) := by
  unfold scoredProducts
  simp only [List.get_eq_getElem, List.getElem_zipWith, List.getElem_zip]

theorem adjustedCriteria_get_of_exact (products : List ProductDict) (search_query : String)
    (hex : (baseCriteria products search_query).any (fun c => c.has_exact_match) = true)
    (i : Nat) (hi : i < products.length) :
    (adjustedCriteria products search_query).get ⟨i, by rw [adjustedCriteria_length]; exact hi⟩
      = adjustCriteria search_query
          ((baseCriteria products search_query).get ⟨i, by rw [baseCriteria_length]; exact hi⟩) := by
  unfold adjustedCriteria
  simp only [hex, if_true, List.get_eq_getElem, List.getElem_map]

theorem adjustedCriteria_eq_of_not_exact (products : List ProductDict) (search_query : String)
    (hex : (baseCriteria products search_query).any (fun c => c.has_exact_match) = false) :
    adjustedCriteria products search_query = baseCriteria products search_query := by
  unfold adjustedCriteria
  simp [hex]

theorem baseCriteria_get (products : List ProductDict) (search_query : String)
    (i : Nat) (hi : i < products.length) :
    (baseCriteria products search_query).get ⟨i, by rw [baseCriteria_length]; exact hi⟩ =
      { relevance := calculate_relevance_score (products.get ⟨i, hi⟩).productName search_query
        price_raw := (products.get ⟨i, hi⟩).price
        source_reliability := source_trust (products.get ⟨i, hi⟩).source
        has_exact_match := is_exact_model_match (low (products.get ⟨i, hi⟩).productName)
          (low search_query)
        is_accessory := is_accessory_product (low (products.get ⟨i, hi⟩).productName) } := by
  unfold baseCriteria
  simp only [List.get_eq_getElem, List.getElem_map]

/-! ### Min/max of price lists -/

theorem foldl_min_le_init (l : List ℚ) : ∀ (a : ℚ), l.foldl min a ≤ a := by
  induction l with
  | nil => intro a; simp
  | cons x xs ih =>
    intro a
    calc xs.foldl min (min a x) ≤ min a x := ih (min a x)
    _ ≤ a := min_le_left _ _

theorem foldl_min_le_mem (l : List ℚ) : ∀ (a x : ℚ), x ∈ l → l.foldl min a ≤ x := by
  induction l with
  | nil => intro a x hx; simp at hx
  | cons y ys ih =>
    intro a x hx
    rcases List.mem_cons.mp hx with h | h
    · subst h
      calc ys.foldl min (min a x) ≤ min a x := foldl_min_le_init ys _
      _ ≤ x := min_le_right _ _
    · exact ih (min a y) x h

theorem le_foldl_max_init (l : List ℚ) : ∀ (a : ℚ), a ≤ l.foldl max a := by
  induction l with
  | nil => intro a; simp
  | cons x xs ih =>
    intro a
    calc a ≤ max a x := le_max_left _ _
    _ ≤ xs.foldl max (max a x) := ih (max a x)

theorem le_foldl_max_mem (l : List ℚ) : ∀ (a x : ℚ), x ∈ l → x ≤ l.foldl max a := by
  induction l with
  | nil => intro a x hx; simp at hx
  | cons y ys ih =>
    intro a x hx
    rcases List.mem_cons.mp hx with h | h
    · subst h
      calc x ≤ max a x := le_max_right _ _
      _ ≤ ys.foldl max (max a x) := le_foldl_max_init ys _
    · exact ih (max a y) x h

theorem listMin_le_mem (l : List ℚ) (x : ℚ) (hx : x ∈ l) : listMin l ≤ x := by
  cases l with
  | nil => simp at hx
  | cons p ps =>
    rcases List.mem_cons.mp hx with h | h
    · subst h; exact foldl_min_le_init ps x
    · exact foldl_min_le_mem ps p x h

theorem le_listMax_mem (l : List ℚ) (x : ℚ) (hx : x ∈ l) : x ≤ listMax l := by
  cases l with
  | nil => simp at hx
  | cons p ps =>
    rcases List.mem_cons.mp hx with h | h
    · subst h; exact le_foldl_max_init ps x
    · exact le_foldl_max_mem ps p x h

theorem listMin_lt_listMax_of_not_allEqual (l : List ℚ) (hne : l ≠ [])
    (hneq : allEqual l = false) : listMin l < listMax l := by
  cases l with
  | nil => exact absurd rfl hne
  | cons p ps =>
    unfold allEqual at hneq
    rw [List.all_eq_false] at hneq
    obtain ⟨q, hq, hqp⟩ := hneq
    simp only [decide_eq_true_eq] at hqp
    have h1 : listMin (p :: ps) ≤ p := listMin_le_mem _ p (List.mem_cons_self _ _)
    have h2 : listMin (p :: ps) ≤ q := listMin_le_mem _ q (List.mem_cons_of_mem _ hq)
    have h3 : p ≤ listMax (p :: ps) := le_listMax_mem _ p (List.mem_cons_self _ _)
    have h4 : q ≤ listMax (p :: ps) := le_listMax_mem _ q (List.mem_cons_of_mem _ hq)
    rcases lt_or_le (listMin (p :: ps)) (listMax (p :: ps)) with h | h
    · exact h
    · exfalso
      apply hqp
      linarith

/-! ### Deduplication invariants -/

/-- Relation between an earlier-accepted listing `a` and a later one `b`:
the later is not a duplicate of the earlier. -/
def notDupOf (a b : Product) : Prop := isDuplicate b a = false

theorem dedup_foldl_pairwise (l : List Product) :
    ∀ (acc : List Product), acc.Pairwise notDupOf →
      (l.foldl dedupStep acc).Pairwise notDupOf := by
  induction l with
  | nil => intro acc hacc; simpa using hacc
  | cons p l' ih =>
    intro acc hacc
    simp only [List.foldl_cons]
    apply ih
    unfold dedupStep
    split
    · exact hacc
    · rename_i hany
      rw [Bool.not_eq_true, List.any_eq_false] at hany
      rw [List.pairwise_append]
      refine ⟨hacc, List.pairwise_singleton _ _, ?_⟩
      intro a ha b hb
      rw [List.mem_singleton] at hb
      subst hb
      have := hany a ha
      unfold notDupOf
      simpa using this

theorem dedup_foldl_of_clean (l : List Product) :
    ∀ (acc : List Product), (acc ++ l).Pairwise notDupOf →
      l.foldl dedupStep acc = acc ++ l := by
  induction l with
  | nil => intro acc _; simp
  | cons p l' ih =>
    intro acc hclean
    simp only [List.foldl_cons]
    have hstep : dedupStep acc p = acc ++ [p] := by
      unfold dedupStep
      have hany : acc.any (fun existing => isDuplicate p existing) = false := by
        rw [List.any_eq_false]
        intro a ha
        have hrel : notDupOf a p := by
          rw [List.pairwise_append] at hclean
          exact hclean.2.2 a ha p (List.mem_cons_self _ _)
        unfold notDupOf at hrel
        simp [hrel]
      rw [hany]
      simp
    rw [hstep]
    have hclean' : ((acc ++ [p]) ++ l').Pairwise notDupOf := by
      rw [List.append_assoc]
      simpa using hclean
    rw [ih (acc ++ [p]) hclean']
    simp

/-! ### The final sort -/

theorem mcdm_sort_sorted (l : List ScoredProduct) :
    (l.mergeSort mcdmDesc).Pairwise (fun a b => b.mcdm_score ≤ a.mcdm_score) := by
  have htrans : ∀ a b c : ScoredProduct,
      mcdmDesc a b = true → mcdmDesc b c = true → mcdmDesc a c = true := fun a b c hab hbc => by
    unfold mcdmDesc at *
    exact decide_eq_true (le_trans (of_decide_eq_true hbc) (of_decide_eq_true hab))
  have htotal : ∀ a b : ScoredProduct, (mcdmDesc a b || mcdmDesc b a) = true := fun a b => by
    unfold mcdmDesc
    rcases le_total b.mcdm_score a.mcdm_score with h | h <;> simp [h]
  have h := @List.sorted_mergeSort ScoredProduct mcdmDesc htrans htotal l
  exact h.imp (fun hab => of_decide_eq_true hab)

theorem adjustedCriteria_price_map (products : List ProductDict) (search_query : String) :
    (adjustedCriteria products search_query).map (fun c => c.price_raw)
      = products.map (fun p => p.price) := by
  unfold adjustedCriteria
  split
  · rw [List.map_map]
    unfold baseCriteria
    rw [List.map_map]
    rfl
  · unfold baseCriteria
    rw [List.map_map]
    rfl

theorem adjustedCriteria_source_map (products : List ProductDict) (search_query : String) :
    (adjustedCriteria products search_query).map (fun c => c.source_reliability)
      = products.map (fun x => source_trust x.source) := by
  unfold adjustedCriteria
  split
  · rw [List.map_map]
    unfold baseCriteria
    rw [List.map_map]
    rfl
  · unfold baseCriteria
    rw [List.map_map]
    rfl

theorem adjustedCriteria_source (products : List ProductDict) (search_query : String)
    (i : Nat) (hi : i < products.length) :
    ((adjustedCriteria products search_query).get
        ⟨i, by rw [adjustedCriteria_length]; exact hi⟩).source_reliability
      = source_trust ((products.get ⟨i, hi⟩).source) := by
  have h1 : i < ((adjustedCriteria products search_query).map
      (fun c => c.source_reliability)).length := by
    rw [List.length_map, adjustedCriteria_length]; exact hi
  have h2 := List.get_of_eq (adjustedCriteria_source_map products search_query) ⟨i, h1⟩
  simp only [List.get_eq_getElem, List.getElem_map] at h2
  simpa only [List.get_eq_getElem] using h2

/-! ### Claims -/

/-- C1: for every non-empty product list and query, `calculate_mcdm_scores`
assigns each product a composite score equal to `adjustedRelevance * 0.75 +
normalizedPrice * 0.20 + sourceTrust * 0.05`, where the source trust is the
table value for the product's source and 0.5 for any source not in the
table, and returns the products sorted in descending order of this
composite score. -/
theorem C1_composite_weights_and_descending_sort (products : List ProductDict)
    (search_query : String) (hne : products ≠ []) :
    (calculate_mcdm_scores products search_query).Pairwise
        (fun a b => b.mcdm_score ≤ a.mcdm_score)
    ∧ (calculate_mcdm_scores products search_query).Perm
        (scoredProducts products search_query)
    ∧ (adjustedCriteria products search_query).map (fun c => c.price_raw)
        = products.map (fun p => p.price)
    ∧ (∀ (i : Nat) (hi : i < products.length),
        ((scoredProducts products search_query).get
            ⟨i, by rw [scoredProducts_length]; exact hi⟩).base = products.get ⟨i, hi⟩
        ∧ ((scoredProducts products search_query).get
            ⟨i, by rw [scoredProducts_length]; exact hi⟩).relevance_score
          = ((adjustedCriteria products search_query).get
            ⟨i, by rw [adjustedCriteria_length]; exact hi⟩).relevance
        ∧ ((scoredProducts products search_query).get
            ⟨i, by rw [scoredProducts_length]; exact hi⟩).mcdm_score
          = ((adjustedCriteria products search_query).get
              ⟨i, by rw [adjustedCriteria_length]; exact hi⟩).relevance * (75/100)
            + ((normalize_price_score ((adjustedCriteria products search_query).map
                (fun c => c.price_raw))).get
              ⟨i, by rw [normalize_price_score_length, List.length_map,
                      adjustedCriteria_length]
                     exact hi⟩) * (20/100)
            + source_trust ((products.get ⟨i, hi⟩).source) * (5/100))
    ∧ (∀ source : String, (∀ kv ∈ source_reliability, kv.1 ≠ source) →
        source_trust source = 1/2) := by
  refine ⟨?_, ?_, adjustedCriteria_price_map products search_query, ?_, ?_⟩
  · exact mcdm_sort_sorted _
  · exact List.mergeSort_perm _ _
  · intro i hi
    rw [scoredProducts_get products search_query i hi]
    refine ⟨rfl, rfl, ?_⟩
    show ((adjustedCriteria products search_query).get _).relevance * (75/100)
        + _ * (20/100)
        + ((adjustedCriteria products search_query).get _).source_reliability * (5/100) = _
    rw [adjustedCriteria_source products search_query i hi]
  · intro source hsource
    unfold source_trust
    have hnone : source_reliability.find? (fun kv => kv.1 = source) = none := by
      rw [List.find?_eq_none]
      intro kv hkv
      simpa using hsource kv hkv
    rw [hnone]
    rfl

/-- Witness for C1 at a concrete one-product list. -/
theorem C1_witness :
    (calculate_mcdm_scores [⟨"l", 10, "INR", "a", "b"⟩] "q").Pairwise
        (fun a b => b.mcdm_score ≤ a.mcdm_score)
    ∧ (calculate_mcdm_scores [⟨"l", 10, "INR", "a", "b"⟩] "q").Perm
        (scoredProducts [⟨"l", 10, "INR", "a", "b"⟩] "q")
    ∧ (adjustedCriteria [⟨"l", 10, "INR", "a", "b"⟩] "q").map (fun c => c.price_raw)
        = ([⟨"l", 10, "INR", "a", "b"⟩] : List ProductDict).map (fun p => p.price)
    ∧ (∀ (i : Nat) (hi : i < ([⟨"l", 10, "INR", "a", "b"⟩] : List ProductDict).length),
        ((scoredProducts [⟨"l", 10, "INR", "a", "b"⟩] "q").get
            ⟨i, by rw [scoredProducts_length]; exact hi⟩).base
          = ([⟨"l", 10, "INR", "a", "b"⟩] : List ProductDict).get ⟨i, hi⟩
        ∧ ((scoredProducts [⟨"l", 10, "INR", "a", "b"⟩] "q").get
            ⟨i, by rw [scoredProducts_length]; exact hi⟩).relevance_score
          = ((adjustedCriteria [⟨"l", 10, "INR", "a", "b"⟩] "q").get
            ⟨i, by rw [adjustedCriteria_length]; exact hi⟩).relevance
        ∧ ((scoredProducts [⟨"l", 10, "INR", "a", "b"⟩] "q").get
            ⟨i, by rw [scoredProducts_length]; exact hi⟩).mcdm_score
          = ((adjustedCriteria [⟨"l", 10, "INR", "a", "b"⟩] "q").get
              ⟨i, by rw [adjustedCriteria_length]; exact hi⟩).relevance * (75/100)
            + ((normalize_price_score ((adjustedCriteria [⟨"l", 10, "INR", "a", "b"⟩] "q").map
                (fun c => c.price_raw))).get
              ⟨i, by rw [normalize_price_score_length, List.length_map,
                      adjustedCriteria_length]
                     exact hi⟩) * (20/100)
            + source_trust ((([⟨"l", 10, "INR", "a", "b"⟩] : List ProductDict).get
                ⟨i, hi⟩).source) * (5/100))
    ∧ (∀ source : String, (∀ kv ∈ source_reliability, kv.1 ≠ source) →
        source_trust source = 1/2) :=
  C1_composite_weights_and_descending_sort [⟨"l", 10, "INR", "a", "b"⟩] "q" (by simp)

/-- C2: for every scored product list and threshold, `filter_low_relevance`
keeps exactly the products whose (possibly adjusted) `relevance_score` is at
least the threshold, as a sublist (the survivors keep their relative order),
so a list sorted descending by composite score stays sorted. -/
theorem C2_filter_low_relevance_correct (products : List ScoredProduct) (min_relevance : ℚ) :
    (filter_low_relevance products min_relevance).Sublist products
    ∧ (∀ p : ScoredProduct, p ∈ filter_low_relevance products min_relevance ↔
        p ∈ products ∧ min_relevance ≤ p.relevance_score)
    ∧ (products.Pairwise (fun a b => b.mcdm_score ≤ a.mcdm_score) →
        (filter_low_relevance products min_relevance).Pairwise
          (fun a b => b.mcdm_score ≤ a.mcdm_score)) := by
  refine ⟨List.filter_sublist _, ?_, ?_⟩
  · intro p
    unfold filter_low_relevance
    simp [List.mem_filter]
  · intro h
    exact List.Pairwise.sublist (List.filter_sublist _) h

/-- Witness for C2 at a concrete two-product list and threshold 0.3. -/
theorem C2_witness :
    (filter_low_relevance [⟨⟨"l", 10, "INR", "a", "b"⟩, 1/2, 1/2⟩,
        ⟨⟨"m", 20, "INR", "c", "d"⟩, 1/10, 1/10⟩] (3/10)).Sublist
        [⟨⟨"l", 10, "INR", "a", "b"⟩, 1/2, 1/2⟩, ⟨⟨"m", 20, "INR", "c", "d"⟩, 1/10, 1/10⟩]
    ∧ (∀ p : ScoredProduct, p ∈ filter_low_relevance [⟨⟨"l", 10, "INR", "a", "b"⟩, 1/2, 1/2⟩,
        ⟨⟨"m", 20, "INR", "c", "d"⟩, 1/10, 1/10⟩] (3/10) ↔
        p ∈ ([⟨⟨"l", 10, "INR", "a", "b"⟩, 1/2, 1/2⟩,
          ⟨⟨"m", 20, "INR", "c", "d"⟩, 1/10, 1/10⟩] : List ScoredProduct)
          ∧ 3/10 ≤ p.relevance_score)
    ∧ (([⟨⟨"l", 10, "INR", "a", "b"⟩, 1/2, 1/2⟩,
          ⟨⟨"m", 20, "INR", "c", "d"⟩, 1/10, 1/10⟩] : List ScoredProduct).Pairwise
          (fun a b => b.mcdm_score ≤ a.mcdm_score) →
        (filter_low_relevance [⟨⟨"l", 10, "INR", "a", "b"⟩, 1/2, 1/2⟩,
          ⟨⟨"m", 20, "INR", "c", "d"⟩, 1/10, 1/10⟩] (3/10)).Pairwise
          (fun a b => b.mcdm_score ≤ a.mcdm_score)) :=
  C2_filter_low_relevance_correct
    [⟨⟨"l", 10, "INR", "a", "b"⟩, 1/2, 1/2⟩, ⟨⟨"m", 20, "INR", "c", "d"⟩, 1/10, 1/10⟩] (3/10)

/-- Relevance of a base criteria row is the relevance score of the matching
product, hence nonnegative. -/
theorem baseCriteria_relevance_nonneg (products : List ProductDict) (search_query : String)
    (i : Nat) (hi : i < products.length) :
    0 ≤ ((baseCriteria products search_query).get
      ⟨i, by rw [baseCriteria_length]; exact hi⟩).relevance := by
  rw [baseCriteria_get products search_query i hi]
  exact (calculate_relevance_score_bounds _ _).1

/-- C3: `calculate_relevance_score` always lies in [0, 1], each of its four
components lies in [0, 1], and the contextual adjustment of
`calculate_mcdm_scores` never increases a product's relevance. -/
theorem C3_relevance_bounded_and_adjustment_decreasing :
    (∀ product_name search_query : String,
      0 ≤ calculate_relevance_score product_name search_query
      ∧ calculate_relevance_score product_name search_query ≤ 1
      ∧ 0 ≤ fuzzyComponent (low product_name) (low search_query)
      ∧ fuzzyComponent (low product_name) (low search_query) ≤ 1
      ∧ 0 ≤ exactComponent (low product_name) (low search_query)
      ∧ exactComponent (low product_name) (low search_query) ≤ 1
      ∧ 0 ≤ partComponent (low product_name) (low search_query)
      ∧ partComponent (low product_name) (low search_query) ≤ 1
      ∧ 0 ≤ calculate_category_alignment (low product_name) (low search_query)
      ∧ calculate_category_alignment (low product_name) (low search_query) ≤ 1)
    ∧ (∀ (products : List ProductDict) (search_query : String)
        (i : Nat) (hi : i < products.length),
        ((adjustedCriteria products search_query).get
            ⟨i, by rw [adjustedCriteria_length]; exact hi⟩).relevance
          ≤ ((baseCriteria products search_query).get
            ⟨i, by rw [baseCriteria_length]; exact hi⟩).relevance) := by
  constructor
  · intro product_name search_query
    obtain ⟨h1, h2⟩ := calculate_relevance_score_bounds product_name search_query
    obtain ⟨h3, h4⟩ := fuzzyComponent_bounds (low product_name) (low search_query)
    obtain ⟨h5, h6⟩ := exactComponent_bounds (low product_name) (low search_query)
    obtain ⟨h7, h8⟩ := partComponent_bounds (low product_name) (low search_query)
    obtain ⟨h9, h10⟩ := category_alignment_bounds (low product_name) (low search_query)
    exact ⟨h1, h2, h3, h4, h5, h6, h7, h8, h9, h10⟩
  · intro products search_query i hi
    by_cases hex : (baseCriteria products search_query).any (fun c => c.has_exact_match) = true
    · rw [adjustedCriteria_get_of_exact products search_query hex i hi]
      exact adjustCriteria_relevance_le _ _
        (baseCriteria_relevance_nonneg products search_query i hi)
    · rw [Bool.not_eq_true] at hex
      have heq := adjustedCriteria_eq_of_not_exact products search_query hex
      have := List.get_of_eq heq ⟨i, by rw [adjustedCriteria_length]; exact hi⟩
      rw [this]

/-- Witness for C3 at a concrete name, query, product list and index. -/
theorem C3_witness :
    (0 ≤ calculate_relevance_score "a" "q" ∧ calculate_relevance_score "a" "q" ≤ 1
      ∧ 0 ≤ fuzzyComponent (low "a") (low "q") ∧ fuzzyComponent (low "a") (low "q") ≤ 1
      ∧ 0 ≤ exactComponent (low "a") (low "q") ∧ exactComponent (low "a") (low "q") ≤ 1
      ∧ 0 ≤ partComponent (low "a") (low "q") ∧ partComponent (low "a") (low "q") ≤ 1
      ∧ 0 ≤ calculate_category_alignment (low "a") (low "q")
      ∧ calculate_category_alignment (low "a") (low "q") ≤ 1)
    ∧ ((adjustedCriteria [⟨"l", 10, "INR", "a", "b"⟩] "q").get
          ⟨0, by rw [adjustedCriteria_length]; simp⟩).relevance
        ≤ ((baseCriteria [⟨"l", 10, "INR", "a", "b"⟩] "q").get
          ⟨0, by rw [baseCriteria_length]; simp⟩).relevance :=
  ⟨C3_relevance_bounded_and_adjustment_decreasing.1 "a" "q",
    C3_relevance_bounded_and_adjustment_decreasing.2 [⟨"l", 10, "INR", "a", "b"⟩] "q" 0
      (by simp)⟩

/-- C4: the contextual relevance adjustments run exactly when some product
of the result set is an exact model match: then every non-exact product's
relevance is multiplied by 0.8 and every accessory (for a non-accessory
query) additionally by 0.3; with no exact match anywhere, relevances are
untouched. -/
theorem C4_adjustment_iff_exact_match_present (products : List ProductDict)
    (search_query : String) :
    ((baseCriteria products search_query).any (fun c => c.has_exact_match)
        = products.any (fun p => is_exact_model_match (low p.productName) (low search_query)))
    ∧ ((baseCriteria products search_query).any (fun c => c.has_exact_match) = true →
        ∀ (i : Nat) (hi : i < products.length),
          ((adjustedCriteria products search_query).get
              ⟨i, by rw [adjustedCriteria_length]; exact hi⟩).relevance
            = ((baseCriteria products search_query).get
                ⟨i, by rw [baseCriteria_length]; exact hi⟩).relevance
              * (if ((baseCriteria products search_query).get
                  ⟨i, by rw [baseCriteria_length]; exact hi⟩).has_exact_match then 1 else 8/10)
              * (if ((baseCriteria products search_query).get
                    ⟨i, by rw [baseCriteria_length]; exact hi⟩).is_accessory
                  && !is_searching_for_accessory search_query then 3/10 else 1))
    ∧ ((baseCriteria products search_query).any (fun c => c.has_exact_match) = false →
        adjustedCriteria products search_query = baseCriteria products search_query) := by
  refine ⟨?_, ?_, adjustedCriteria_eq_of_not_exact products search_query⟩
  · unfold baseCriteria
    induction products with
    | nil => rfl
    | cons p ps ih => simp only [List.map_cons, List.any_cons, ih]
  · intro hex i hi
    rw [adjustedCriteria_get_of_exact products search_query hex i hi, adjustCriteria_factor]

/-- Witness for C4 with one exact-model-matching product (`13r` matches the
`\d+r` pattern in name and query). -/
theorem C4_witness :
    ((adjustedCriteria [⟨"l", 10, "INR", "13r", "s"⟩] "13r").get
        ⟨0, by rw [adjustedCriteria_length]; simp⟩).relevance
      = ((baseCriteria [⟨"l", 10, "INR", "13r", "s"⟩] "13r").get
          ⟨0, by rw [baseCriteria_length]; simp⟩).relevance
        * (if ((baseCriteria [⟨"l", 10, "INR", "13r", "s"⟩] "13r").get
            ⟨0, by rw [baseCriteria_length]; simp⟩).has_exact_match then 1 else 8/10)
        * (if ((baseCriteria [⟨"l", 10, "INR", "13r", "s"⟩] "13r").get
              ⟨0, by rw [baseCriteria_length]; simp⟩).is_accessory
            && !is_searching_for_accessory "13r" then 3/10 else 1) :=
  (C4_adjustment_iff_exact_match_present [⟨"l", 10, "INR", "13r", "s"⟩] "13r").2.1
    (by decide) 0 (by simp)

/-- C5: two same-currency listings are duplicates exactly when their name
similarity exceeds 90 and their relative price difference is below 0.05;
identical names with a 2% price gap collapse to one listing, an 8% gap
keeps both. -/
theorem C5_same_currency_duplicate_rule (p q : Product) (h : p.currency = q.currency) :
    (isDuplicate p q = true ↔
      (90 < fuzzRatio (low p.product_name) (low q.product_name)
        ∧ |p.price - q.price| / max p.price (max q.price 1) < 5/100))
    ∧ remove_duplicates
        [⟨"l1", 100, "INR", "Phone X", "Amazon.in"⟩, ⟨"l2", 98, "INR", "Phone X", "Flipkart"⟩]
      = [⟨"l1", 100, "INR", "Phone X", "Amazon.in"⟩]
    ∧ remove_duplicates
        [⟨"l1", 100, "INR", "Phone X", "Amazon.in"⟩, ⟨"l2", 92, "INR", "Phone X", "Flipkart"⟩]
      = [⟨"l1", 100, "INR", "Phone X", "Amazon.in"⟩, ⟨"l2", 92, "INR", "Phone X", "Flipkart"⟩] := by
  refine ⟨?_, by decide, by decide⟩
  unfold isDuplicate
  rw [if_pos h]
  simp only [Bool.and_eq_true, decide_eq_true_eq]

/-- Witness for C5 at two concrete same-currency listings. -/
theorem C5_witness :
    isDuplicate ⟨"l2", 98, "INR", "Phone X", "Flipkart"⟩
        ⟨"l1", 100, "INR", "Phone X", "Amazon.in"⟩ = true ↔
      (90 < fuzzRatio (low "Phone X") (low "Phone X")
        ∧ |(98 : ℚ) - 100| / max (98 : ℚ) (max 100 1) < 5/100) :=
  (C5_same_currency_duplicate_rule ⟨"l2", 98, "INR", "Phone X", "Flipkart"⟩
    ⟨"l1", 100, "INR", "Phone X", "Amazon.in"⟩ rfl).1

/-- C6: the deduplicator is idempotent, and its output contains no pair its
equivalence test would classify as duplicates. -/
theorem C6_dedup_idempotent (products : List Product) :
    remove_duplicates (remove_duplicates products) = remove_duplicates products
    ∧ (remove_duplicates products).Pairwise notDupOf := by
  have hpw : (remove_duplicates products).Pairwise notDupOf :=
    dedup_foldl_pairwise products [] List.Pairwise.nil
  refine ⟨?_, hpw⟩
  unfold remove_duplicates
  exact dedup_foldl_of_clean _ [] (by simpa using hpw)

/-- Folding the gather loop from any accumulator appends exactly the
successful sources' listings. -/
theorem gatherSucceeded_aux (results : List (Except String (List Product))) :
    ∀ (acc : List Product),
      results.foldl (fun all_products result =>
        match result with
        | .ok lst => all_products ++ lst
        | .error _ => all_products) acc
      = acc ++ (results.map (fun result =>
          match result with
          | .ok lst => lst
          | .error _ => [])).flatten := by
  induction results with
  | nil => intro acc; simp
  | cons r rest ih =>
    intro acc
    cases r with
    | ok lst => simp [ih (acc ++ lst)]
    | error e => simp [ih acc]

/-- C7: when some sources fail and the rest return listing lists, the
pipeline collects exactly the concatenation of the successful sources'
listings (each failure contributes nothing) and returns the ranked,
filtered result computed from them; as a total function it raises
nothing. -/
theorem C7_partial_failure_tolerance (results : List (Except String (List Product)))
    (query : String) :
    gatherSucceeded results = (results.map (fun result =>
        match result with
        | .ok lst => lst
        | .error _ => [])).flatten
    ∧ search_products results query
      = filter_low_relevance
          (calculate_mcdm_scores
            ((remove_duplicates (gatherSucceeded results)).map Product.to_dict) query)
          (2/10) := by
  constructor
  · unfold gatherSucceeded
    simpa using gatherSucceeded_aux results []
  · rfl

/-- C8: price normalization is antitone — a cheaper listing never gets a
smaller normalized price score than a dearer one — and when the price set is
a singleton or all prices are equal, every score is 0.5. -/
theorem C8_price_normalization_antitone (prices : List ℚ) (i j : Nat)
    (hi : i < prices.length) (hj : j < prices.length)
    (hij : prices.get ⟨i, hi⟩ ≤ prices.get ⟨j, hj⟩) :
    (normalize_price_score prices).get
        ⟨j, by rw [normalize_price_score_length]; exact hj⟩
      ≤ (normalize_price_score prices).get
        ⟨i, by rw [normalize_price_score_length]; exact hi⟩
    ∧ (allEqual prices = true →
        normalize_price_score prices = List.replicate prices.length (1/2)) := by
  constructor
  · by_cases hcond : (prices.isEmpty || allEqual prices) = true
    · have heq : normalize_price_score prices = List.replicate prices.length (1/2) := by
        unfold normalize_price_score
        rw [if_pos hcond]
      have h1 := List.get_of_eq heq ⟨i, by rw [normalize_price_score_length]; exact hi⟩
      have h2 := List.get_of_eq heq ⟨j, by rw [normalize_price_score_length]; exact hj⟩
      rw [h1, h2, List.get_replicate, List.get_replicate]
    · have heq : normalize_price_score prices = prices.map (fun price =>
          if listMax prices - listMin prices = 0 then 1/2
          else 1 - (price - listMin prices) / (listMax prices - listMin prices)) := by
        unfold normalize_price_score
        rw [if_neg hcond]
      rw [Bool.or_eq_true, not_or, Bool.not_eq_true, Bool.not_eq_true] at hcond
      have hne : prices ≠ [] := by
        intro hc
        rw [hc] at hcond
        simp at hcond
      have hlt : listMin prices < listMax prices :=
        listMin_lt_listMax_of_not_allEqual prices hne hcond.2
      have hrange : listMax prices - listMin prices ≠ 0 := by linarith
      have hrangepos : (0 : ℚ) < listMax prices - listMin prices := by linarith
      have h1 := List.get_of_eq heq ⟨i, by rw [normalize_price_score_length]; exact hi⟩
      have h2 := List.get_of_eq heq ⟨j, by rw [normalize_price_score_length]; exact hj⟩
      rw [h1, h2]
      simp only [List.get_eq_getElem, List.getElem_map, if_neg hrange]
      have hdiv : (prices.get ⟨i, hi⟩ - listMin prices) / (listMax prices - listMin prices)
          ≤ (prices.get ⟨j, hj⟩ - listMin prices) / (listMax prices - listMin prices) := by
        rw [div_le_div_iff_of_pos_right hrangepos]
        linarith
      simp only [List.get_eq_getElem] at hdiv
      linarith
  · intro h
    unfold normalize_price_score
    rw [if_pos (by simp [h])]

/-- Witness for C8 at the concrete price list [100, 120]. -/
theorem C8_witness :
    (normalize_price_score [100, 120]).get
        ⟨1, by rw [normalize_price_score_length]; simp⟩
      ≤ (normalize_price_score [100, 120]).get
        ⟨0, by rw [normalize_price_score_length]; simp⟩
    ∧ (allEqual [100, 120] = true →
        normalize_price_score [100, 120] = List.replicate ([100, 120] : List ℚ).length (1/2)) :=
  C8_price_normalization_antitone [100, 120] 0 1 (by simp) (by simp) (by norm_num)

/-- C9 counterexample: the deduplicator's name similarity is `fuzz.ratio`,
which is not token-order-insensitive: `"cd ab"` is a whitespace-token
permutation of `"ab cd"`, yet the similarity drops from 100 to 40 and the
duplicate decision for two otherwise identical listings flips. -/
theorem C9_counterexample :
    (splitWs (low "cd ab")).Perm (splitWs (low "ab cd"))
    ∧ fuzzRatio (low "ab cd") (low "ab cd") = 100
    ∧ fuzzRatio (low "cd ab") (low "ab cd") = 40
    ∧ fuzzRatio (low "cd ab") (low "ab cd") ≠ fuzzRatio (low "ab cd") (low "ab cd")
    ∧ remove_duplicates
        [⟨"l1", 100, "INR", "ab cd", "Amazon.in"⟩, ⟨"l2", 100, "INR", "ab cd", "Flipkart"⟩]
      = [⟨"l1", 100, "INR", "ab cd", "Amazon.in"⟩]
    ∧ remove_duplicates
        [⟨"l1", 100, "INR", "ab cd", "Amazon.in"⟩, ⟨"l2", 100, "INR", "cd ab", "Flipkart"⟩]
      = [⟨"l1", 100, "INR", "ab cd", "Amazon.in"⟩, ⟨"l2", 100, "INR", "cd ab", "Flipkart"⟩] := by
  refine ⟨by decide, by decide, by decide, by decide, by decide, by decide⟩

/-- C9 amended: the similarity is case-insensitive — it depends only on the
lower-cased names — but it is a plain sequence ratio, not token-order
insensitive: permuting a name's whitespace tokens can change the similarity
and flip a duplicate decision (witnessed by the counterexample pair above). -/
theorem C9_amended_case_insensitive_only (s t u : String) (h : low s = low t) :
    (fuzzRatio (low s) (low u) = fuzzRatio (low t) (low u)
      ∧ fuzzRatio (low u) (low s) = fuzzRatio (low u) (low t))
    ∧ (splitWs (low "cd ab")).Perm (splitWs (low "ab cd"))
    ∧ fuzzRatio (low "cd ab") (low "ab cd") ≠ fuzzRatio (low "ab cd") (low "ab cd") := by
  refine ⟨⟨by rw [h], by rw [h]⟩, by decide, by decide⟩

/-- Witness for the C9 amended claim: changing letter case
(`"AB cd"` vs `"ab CD"`) leaves the similarity unchanged. -/
theorem C9_amended_witness :
    (fuzzRatio (low "AB cd") (low "x") = fuzzRatio (low "ab CD") (low "x")
      ∧ fuzzRatio (low "x") (low "AB cd") = fuzzRatio (low "x") (low "ab CD"))
    ∧ (splitWs (low "cd ab")).Perm (splitWs (low "ab cd"))
    ∧ fuzzRatio (low "cd ab") (low "ab cd") ≠ fuzzRatio (low "ab cd") (low "ab cd") :=
  C9_amended_case_insensitive_only "AB cd" "ab CD" "x" (by decide)

/-- C10 counterexample: for query `"phone"` (classified into the `phone`
category) and a name `"xyz"` containing neither a phone keyword nor an
accessory keyword, the category alignment is 0.3, not the neutral 0.5 the
claim asserts. -/
theorem C10_counterexample :
    (queryCategory (low "phone")).isSome = true
    ∧ anyKeywordIn (((queryCategory (low "phone")).map (fun c => c.2)).getD []) (low "xyz")
      = false
    ∧ anyKeywordIn accessory_keywords_table (low "xyz") = false
    ∧ calculate_category_alignment (low "xyz") (low "phone") = 3/10
    ∧ (3/10 : ℚ) ≠ 1/2 := by
  refine ⟨by decide, by decide, by decide, by decide, by norm_num⟩

/-- C10 amended: the alignment is the neutral 0.5 when the query has no
category keyword, and also when the query's category is a non-main one
(audio/accessory) and the name matches neither that category's keywords nor
an accessory keyword; but when the query's category is phone, laptop or
tablet and the name matches neither, the alignment is 0.3. -/
theorem C10_amended_neutral_cases (product_name query : List Char) :
    (queryCategory query = none → calculate_category_alignment product_name query = 1/2)
    ∧ (∀ qc : String × List String, queryCategory query = some qc →
        ¬(qc.1 = "phone" ∨ qc.1 = "laptop" ∨ qc.1 = "tablet") →
        anyKeywordIn qc.2 product_name = false →
        anyKeywordIn accessory_keywords_table product_name = false →
        calculate_category_alignment product_name query = 1/2)
    ∧ (∀ qc : String × List String, queryCategory query = some qc →
        (qc.1 = "phone" ∨ qc.1 = "laptop" ∨ qc.1 = "tablet") →
        anyKeywordIn qc.2 product_name = false →
        anyKeywordIn accessory_keywords_table product_name = false →
        calculate_category_alignment product_name query = 3/10) := by
  refine ⟨?_, ?_, ?_⟩
  · intro h
    unfold calculate_category_alignment
    rw [h]
  · intro qc hqc hmain hpm hacc
    unfold calculate_category_alignment
    rw [hqc]
    simp only [if_neg hmain]
    rw [if_neg (by simp [hpm]), if_neg (by simp [hacc])]
  · intro qc hqc hmain hpm hacc
    unfold calculate_category_alignment
    rw [hqc]
    simp only [if_pos hmain]
    rw [if_neg (by simp [hacc]), if_neg (by simp [hpm])]

/-- Witness for the C10 amended claim at concrete names and queries. -/
theorem C10_amended_witness :
    calculate_category_alignment (low "xyz") (low "zzz") = 1/2
    ∧ calculate_category_alignment (low "xyz") (low "speaker") = 1/2
    ∧ calculate_category_alignment (low "xyz") (low "phone") = 3/10 :=
  ⟨(C10_amended_neutral_cases (low "xyz") (low "zzz")).1 (by decide),
    (C10_amended_neutral_cases (low "xyz") (low "speaker")).2.1
      ("audio", ["headphones", "earbuds", "speaker", "airpods"]) (by decide) (by decide)
      (by decide) (by decide),
    (C10_amended_neutral_cases (low "xyz") (low "phone")).2.2
      ("phone", ["iphone", "phone", "mobile", "smartphone", "galaxy", "pixel", "oneplus"])
      (by decide) (by decide) (by decide) (by decide)⟩

end BharatX
